import Mathlib

/-!
# wasmtime-go: resource handles of linear memories and the host-function bridge

A shallow embedding of `memory.go` (handle construction, the reclamation
finalizer, `owner`, `Grow`, `AsExtern`) over an explicit world state, and of the
host-function call bridge exercised by `func_test.go`.

Conventions of the embedding:
* a native pointer is its address (`Ptr`), a Go pointer to a handle object is the
  index of the object in the world's heap (`Addr`), a `*freeList` is the identity
  of the registry it points to (`FreeListRef`; every caller passes a store's
  registry, a nil registry pointer is not represented);
* every native call is recorded in `World.calls`; the engine's answers are given
  by an `Engine` of functions of the calls made so far;
* Go's `uint` is a natural number below `2 ^ 64`; a conversion to the engine's
  32-bit page count is `% 2 ^ 32`;
* a Go run-time panic on a nil or foreign pointer is `none`.
-/

namespace Wasmtime

/-! ## Data model -/

/-- Native pointer (`*C.wasm_memory_t`, `*C.wasm_extern_t`, ...), by address. -/
abbrev Ptr := Nat

/-- Go pointer to a handle object: the index of the object in `World.heap`. -/
abbrev Addr := Nat

/-- Go pointer to a registry (`*freeList`): the identity of the registry. -/
abbrev FreeListRef := Nat

/-- Go `interface{}` value as stored in a handle's `_owner` field: the nil
interface, or a non-nil interface holding a `*Memory`, a `*Extern`, or any
other value (identified abstractly). -/
inductive Iface where
  | nil
  | memory (a : Addr)
  | externRef (a : Addr)
  | other (id : Nat)
  deriving DecidableEq, Repr

/-- Go `sync.Mutex`, by whether it is held. -/
structure Mutex where
  locked : Bool
  deriving DecidableEq, Repr

/-- `Lock()`: returns with the mutex held by the caller. -/
def Mutex.Lock (_m : Mutex) : Mutex := { locked := true }

/-- `Unlock()`: releases the mutex. -/
def Mutex.Unlock (_m : Mutex) : Mutex := { locked := false }

/-- Modelled from the spec: the type declaration of `freeList` is not part of
`memory.go`, which only uses its fields `lock` and `memories`. Per the spec's
data model the registry is "an ordered collection of pending native pointers to
free, one per resource kind, guarded by a mutual-exclusion lock": `memories` is
the queue of the memory kind, `externs` the queue of the type-erased extern
kind, `rest` the queues of the remaining kinds. -/
structure freeList where
  lock : Mutex
  memories : List Ptr
  externs : List Ptr
  rest : List (List Ptr)
  deriving DecidableEq, Repr

/-- `type Memory struct { _ptr; freelist; _owner }` (memory.go:8-12). -/
structure Memory where
  _ptr : Ptr
  freelist : FreeListRef
  _owner : Iface
  deriving DecidableEq, Repr

/-- Modelled from the spec: the type declaration of `Extern` is not part of
`memory.go`. It is the generic resource handle of the spec's data model: native
pointer, reference to the shared registry, optional owner. -/
structure Extern where
  _ptr : Ptr
  freelist : FreeListRef
  _owner : Iface
  deriving DecidableEq, Repr

/-- Modelled from the spec: the type declaration of `Store` is not part of
`memory.go`, which uses `store.ptr()` and `store.freelist`. -/
structure Store where
  _ptr : Ptr
  freelist : FreeListRef
  deriving DecidableEq, Repr

/-- Modelled from the spec: the type declaration of `MemoryType` is not part of
`memory.go`, which uses `ty.ptr()`. -/
structure MemoryType where
  _ptr : Ptr
  deriving DecidableEq, Repr

/-- Handle object living in the Go heap. -/
inductive Obj where
  | memory (m : Memory)
  | ext (e : Extern)
  deriving DecidableEq, Repr

/-- The finalizer closures of the program: `memories` is the function literal of
memory.go:25-29, `externs` its counterpart for `Extern` handles. -/
inductive FinalizerFn where
  | memories
  | externs
  deriving DecidableEq, Repr

/-- Heap cell: the object, the finalizer currently registered for it with
`runtime.SetFinalizer` (if any), and whether the run-time has already run a
finalizer on it. The object itself is never written after allocation. -/
structure Cell where
  obj : Obj
  finalizer : Option FinalizerFn
  finalized : Bool
  deriving DecidableEq, Repr

/-- Record of a call into the native engine. `memory_delete` is the memory
kind's native free function of the spec's external interface. -/
inductive NativeCall where
  | memory_new (store ty : Ptr)
  | memory_grow (m : Ptr) (pages : Nat)
  | memory_as_ext (m : Ptr)
  | memory_delete (m : Ptr)
  deriving DecidableEq, Repr

/-- The native engine as used by `memory.go`: each entry point answers as a
function of the calls made so far and of its arguments. -/
structure Engine where
  wasm_memory_new : List NativeCall → Ptr → Ptr → Ptr
  wasm_memory_grow : List NativeCall → Ptr → Nat → Bool
  wasm_memory_as_extern : List NativeCall → Ptr → Ptr

/-- State of the program: the heap of handle objects, the registries, and the
native calls made so far. -/
structure World where
  heap : List Cell
  freelists : FreeListRef → freeList
  calls : List NativeCall

/-- Dereference of a `*Memory`. -/
def World.memory? (w : World) (a : Addr) : Option Memory :=
  match w.heap[a]? with
  | some c =>
    match c.obj with
    | .memory m => some m
    | .ext _ => none
  | none => none

/-! ## Go run-time: finalizers -/

/-- `runtime.SetFinalizer(f, fn)`: registers `fn` on the object at `f`. -/
def SetFinalizer (f : Addr) (fn : FinalizerFn) (w : World) : World :=
  match w.heap[f]? with
  | some c => { w with heap := w.heap.set f { c with finalizer := some fn } }
  | none => w

/-- The finalizer closure of memory.go:25-29, applied to the handle `f`:
takes the registry's lock, appends `f._ptr` to `f.freelist.memories`, and
releases the lock on return (the deferred `Unlock`). -/
def Memory.finalizer (f : Memory) (w : World) : World :=
  let fl := w.freelists f.freelist
  let fl := { fl with lock := fl.lock.Lock }
  let fl := { fl with memories := fl.memories ++ [f._ptr] }
  let fl := { fl with lock := fl.lock.Unlock }
  { w with freelists := Function.update w.freelists f.freelist fl }

/-- Modelled from the spec: the finalizer of an owning `Extern` handle
(`mkExtern` is not part of `memory.go`). "When an owning handle becomes
unreachable, its native pointer is appended to the Registry's queue for its
resource kind, under the lock." -/
def Extern.finalizer (f : Extern) (w : World) : World :=
  let fl := w.freelists f.freelist
  let fl := { fl with lock := fl.lock.Lock }
  let fl := { fl with externs := fl.externs ++ [f._ptr] }
  let fl := { fl with lock := fl.lock.Unlock }
  { w with freelists := Function.update w.freelists f.freelist fl }

/-- The collector finds the object at `a` unreachable: if a finalizer is
registered for it, the registration is cleared and the finalizer is run on the
object (Go runs a finalizer once per registration); otherwise nothing happens. -/
def runFinalizer (a : Addr) (w : World) : World :=
  match w.heap[a]? with
  | some c =>
    match c.finalizer, c.obj with
    | some .memories, .memory f =>
      Memory.finalizer f
        { w with heap := w.heap.set a { c with finalizer := none, finalized := true } }
    | some .externs, .ext e =>
      Extern.finalizer e
        { w with heap := w.heap.set a { c with finalizer := none, finalized := true } }
    | _, _ => w
  | none => w

/-- Modelled from the spec: `maybeGC` is not part of `memory.go`; `ptr()` calls
it between reading `_ptr` and returning. It may run the host collector, whose
reclamation hooks can fire "at arbitrary times": the collector's choice is the
list `dead` of objects it finds unreachable, whose finalizers are run in order
(`dead = []` is the build in which `maybeGC` does nothing). -/
def maybeGC (dead : List Addr) (w : World) : World :=
  dead.foldl (fun w a => runFinalizer a w) w

/-! ## memory.go -/

/-- `mkMemory` (memory.go:22-32): allocates the handle and, when `owner` is the
nil interface, registers the reclamation finalizer on it. Returns the new
handle's address. -/
def mkMemory (ptr : Ptr) (freelist : FreeListRef) (owner : Iface) (w : World) :
    Addr × World :=
  let f := w.heap.length
  let w1 := { w with heap := w.heap ++
    [{ obj := .memory { _ptr := ptr, _owner := owner, freelist := freelist },
       finalizer := none, finalized := false }] }
  if owner = Iface.nil then (f, SetFinalizer f .memories w1) else (f, w1)

/-- Modelled from the spec: `mkExtern` is not part of `memory.go`, which calls
it in `AsExtern`. It follows the resource-handle pattern of the spec:
`acquire` (no owner) "wraps a freshly created native object as an owning
handle", `borrow` "creates a non-owning view tied to `owner`'s lifetime", and
"if owner reference is present, the handle does not own the native pointer and
must never enqueue it for reclamation". -/
def mkExtern (ptr : Ptr) (freelist : FreeListRef) (owner : Iface) (w : World) :
    Addr × World :=
  let f := w.heap.length
  let w1 := { w with heap := w.heap ++
    [{ obj := .ext { _ptr := ptr, _owner := owner, freelist := freelist },
       finalizer := none, finalized := false }] }
  if owner = Iface.nil then (f, SetFinalizer f .externs w1) else (f, w1)

/-- Modelled from the spec: `Store.ptr` is not part of `memory.go`; it has the
shape of `Memory.ptr` (read the pointer, `maybeGC()`, return it). -/
def Store.ptr (s : Store) (dead : List Addr) (w : World) : Ptr × World :=
  (s._ptr, maybeGC dead w)

/-- Modelled from the spec: `MemoryType.ptr` is not part of `memory.go`; it has
the shape of `Memory.ptr`. -/
def MemoryType.ptr (t : MemoryType) (dead : List Addr) (w : World) : Ptr × World :=
  (t._ptr, maybeGC dead w)

/-- `NewMemory` (memory.go:15-20). `dead₁`, `dead₂` are the collector's choices
at the two `ptr()` calls. -/
def NewMemory (eng : Engine) (store : Store) (ty : MemoryType)
    (dead₁ dead₂ : List Addr) (w : World) : Addr × World :=
  let (sp, w1) := store.ptr dead₁ w
  let (tp, w2) := ty.ptr dead₂ w1
  let ptr := eng.wasm_memory_new w2.calls sp tp
  let w3 := { w2 with calls := w2.calls ++ [.memory_new sp tp] }
  mkMemory ptr store.freelist Iface.nil w3

/-- `Memory.ptr` (memory.go:34-38): reads `_ptr`, then `maybeGC()`. -/
def Memory.ptr (f : Addr) (dead : List Addr) (w : World) : Option (Ptr × World) :=
  match w.memory? f with
  | some m => some (m._ptr, maybeGC dead w)
  | none => none

/-- `Memory.owner` (memory.go:40-45): the handle's owner if it has one,
otherwise the handle itself. -/
def Memory.owner (f : Addr) (w : World) : Option Iface :=
  match w.memory? f with
  | some m => if m._owner ≠ Iface.nil then some m._owner else some (Iface.memory f)
  | none => none

/-- `Memory.Grow` (memory.go:76-80). `delta` is a Go `uint`; the conversion
`C.wasm_memory_pages_t(delta)` to the engine's `uint32_t` keeps the low 32
bits. `runtime.KeepAlive(m)` has no effect on the state. -/
def Memory.Grow (eng : Engine) (m : Addr) (delta : Nat) (dead : List Addr) (w : World) :
    Option (Bool × World) :=
  match Memory.ptr m dead w with
  | some (p, w1) =>
    let pages := delta % 2 ^ 32
    let ret := eng.wasm_memory_grow w1.calls p pages
    let w2 := { w1 with calls := w1.calls ++ [.memory_grow p pages] }
    some (ret, w2)
  | none => none

/-- `Memory.AsExtern` (memory.go:82-85). -/
def Memory.AsExtern (eng : Engine) (m : Addr) (dead : List Addr) (w : World) :
    Option (Addr × World) :=
  match Memory.ptr m dead w with
  | some (p, w1) =>
    let ptr := eng.wasm_memory_as_extern w1.calls p
    let w2 := { w1 with calls := w1.calls ++ [.memory_as_ext p] }
    match w2.memory? m, Memory.owner m w2 with
    | some mem, some o => some (mkExtern ptr mem.freelist o w2)
    | _, _ => none
  | none => none

/-! ## Host-function bridge

`func.go` (with `NewFunc`, `WrapFunc`, `Func.Call` and the trampoline) is not
among the sources; `func_test.go` exercises it. The definitions below follow
the spec's Value / Signature / Callback Bridge sections and the types the test
uses. -/

/-- Modelled from the spec: the kind tags of a Value, "32/64-bit integer,
32/64-bit float, reference" (`KindI32`, ... in the test). -/
inductive ValKind where
  | I32
  | I64
  | F32
  | F64
  | Ref
  deriving DecidableEq, Repr

/-- Modelled from the spec: `Val`, the "tagged union representing one VM-level
datum"; the payload of every kind is its bit pattern. -/
inductive Val where
  | I32 (bits : Nat)
  | I64 (bits : Nat)
  | F32 (bits : Nat)
  | F64 (bits : Nat)
  | Ref (bits : Nat)
  deriving DecidableEq, Repr

/-- Modelled from the spec: a host-native scalar (`int32`, `int64`, `float32`,
`float64`, or a reference), the "host-native typed representation" of a Value. -/
inductive HostScalar where
  | int32 (bits : Nat)
  | int64 (bits : Nat)
  | float32 (bits : Nat)
  | float64 (bits : Nat)
  | ref (bits : Nat)
  deriving DecidableEq, Repr

/-- Modelled from the spec: the discriminant of a Value. -/
def Val.Kind : Val → ValKind
  | .I32 _ => .I32
  | .I64 _ => .I64
  | .F32 _ => .F32
  | .F64 _ => .F64
  | .Ref _ => .Ref

/-- Modelled from the spec: conversion of a Value to its host-native typed
representation. -/
def Val.Get : Val → HostScalar
  | .I32 b => .int32 b
  | .I64 b => .int64 b
  | .F32 b => .float32 b
  | .F64 b => .float64 b
  | .Ref b => .ref b

/-- Modelled from the spec: conversion of a host-native scalar to a Value
(`ValI32`, `ValI64`, `ValF32`, `ValF64` in the test). -/
def ValOf : HostScalar → Val
  | .int32 b => .I32 b
  | .int64 b => .I64 b
  | .float32 b => .F32 b
  | .float64 b => .F64 b
  | .ref b => .Ref b

/-- Modelled from the spec: the payload a Value occupies in a slot of a native
argument or result buffer. -/
def Val.bits : Val → Nat
  | .I32 b => b
  | .I64 b => b
  | .F32 b => b
  | .F64 b => b
  | .Ref b => b

/-- Modelled from the spec: decoding of one native slot "strictly following"
the kind the signature declares for it. -/
def Val.ofBits : ValKind → Nat → Val
  | .I32, b => .I32 b
  | .I64, b => .I64 b
  | .F32, b => .F32 b
  | .F64, b => .F64 b
  | .Ref, b => .Ref b

/-- Modelled from the spec: encoding of a sequence of Values into a native
buffer. -/
def encodeVals (vs : List Val) : List Nat := vs.map Val.bits

/-- Modelled from the spec: positional decoding of a native buffer following a
list of kinds. -/
def decodeVals (kinds : List ValKind) (buf : List Nat) : List Val :=
  List.zipWith Val.ofBits kinds buf

/-- Modelled from the spec: Signature, "ordered sequence of parameter-kind
tags, ordered sequence of result-kind tags" (`NewFuncType` in the test). -/
structure FuncType where
  params : List ValKind
  results : List ValKind
  deriving DecidableEq, Repr

/-- Modelled from the spec: Trap, "a recoverable, VM-visible error value"
carrying a human-readable message (`NewTrap(store, msg)` in the test). -/
structure Trap where
  message : String
  deriving DecidableEq, Repr

/-- Modelled from the spec: `NewTrap`, the "error/trap construction call taking
a message string" (the store argument of the test carries no information
here). -/
def NewTrap (message : String) : Trap := { message := message }

/-- Modelled from the spec: `Trap.Message`, the message the trap carries. -/
def Trap.Message (t : Trap) : String := t.message

/-- Modelled from the spec: the value of a host-language fault (a Go panic
value): a string, or any other value identified abstractly. -/
inductive Payload where
  | str (s : String)
  | other (id : Nat)
  deriving DecidableEq, Repr

/-- Modelled from the spec: the "caller context" handed to a closure. -/
structure Caller where
  ptr : Ptr
  deriving DecidableEq, Repr

/-- Modelled from the spec: how a piece of host code terminates: it returns
a value, or raises a host-language fault. -/
inductive Exec (α : Type) where
  | returned (a : α)
  | panicked (v : Payload)

/-- Modelled from the spec: the generic callback of `NewFunc`, of Go type
`func(caller *Caller, args []Val) ([]Val, *Trap)` in the test. -/
abbrev Callback := Caller → List Val → Exec (List Val × Option Trap)

/-- Modelled from the spec: a Function, the registration of a host closure
together with its Signature. -/
structure Func where
  ty : FuncType
  callback : Callback

/-- Modelled from the spec: `NewFunc`, `register(signature, closure)`. -/
def NewFunc (ty : FuncType) (cb : Callback) : Func := { ty := ty, callback := cb }

/-- Modelled from the spec: a Go function value as the typed-wrap path sees it
by introspection: an optional leading caller-context parameter, the declared
scalar parameter and result types, an optional trailing `*Trap` result, and the
function itself. -/
structure HostFn where
  hasCaller : Bool
  params : List ValKind
  results : List ValKind
  hasTrap : Bool
  body : Option Caller → List HostScalar → Exec (List HostScalar × Option Trap)

/-- Modelled from the spec: `WrapFunc`. The Signature is derived from the
declared types (caller context and trailing trap excluded); the closure gets
each argument converted to its host-native type and its results are converted
back; the trailing `*Trap` slot, when declared, is the trap return. -/
def WrapFunc (fn : HostFn) : Func :=
  { ty := { params := fn.params, results := fn.results }
    callback := fun caller args =>
      match fn.body (if fn.hasCaller then some caller else none) (args.map Val.Get) with
      | .panicked v => .panicked v
      | .returned (rs, t) => .returned (rs.map ValOf, if fn.hasTrap then t else none) }

/-- Modelled from the spec: what the trampoline hands back to the engine:
results in the native result buffer, or a trap on the error channel. -/
inductive NativeRet where
  | results (buf : List Nat)
  | trap (t : Trap)
  deriving DecidableEq, Repr

/-- Modelled from the spec: the call-scoped one-shot cell that holds a captured
host-language fault. -/
structure CallFrame where
  captured : Option Payload
  deriving DecidableEq, Repr

/-- Modelled from the spec: the states of a single call. -/
inductive CallState where
  | Idle
  | NativeEntered
  | ArgsDecoded
  | ClosureRunning
  | NormalReturn
  | TrapReturned
  | FaultCaptured
  | NativeExited
  | HostFaultReraised
  deriving DecidableEq, Repr

/-- Modelled from the spec: the text of the bridge contract violation raised
when "a declared result kind" does not "match what the closure actually
returns" (the text `TestFuncWrongRet` looks for). -/
def wrongResultMessage : String := "callback produced wrong type of result"

/-- Modelled from the spec: the text of the bridge contract violation raised
when a Value does not match the Signature slot it occupies at the call entry
point. The spec fixes that this is an unrecoverable fault, not its text. -/
def wrongArgumentMessage : String := "argument of wrong kind for parameter"

/-- Modelled from the spec: the trap returned to the engine "solely to unwind
the native call stack" after a fault was captured; the call entry point
discards it. -/
def sentinelTrap : Trap := { message := "host fault captured" }

/-- Modelled from the spec: steps 3-4 of the trampoline inside the fault
boundary: invoke the closure on the decoded arguments, then either pass on its
trap, or check the produced kinds against the declared result kinds and encode
the results; a mismatch is a fault raised at this point. -/
def invokeClosure (f : Func) (caller : Caller) (args : List Val) : Exec NativeRet :=
  match f.callback caller args with
  | .panicked v => .panicked v
  | .returned (_, some t) => .returned (.trap t)
  | .returned (rs, none) =>
    if rs.map Val.Kind = f.ty.results then .returned (.results (encodeVals rs))
    else .panicked (.str wrongResultMessage)

/-- Modelled from the spec: the trampoline. It decodes the native argument
buffer following the parameter kinds, runs the closure, and never lets a fault
cross the native frame: a fault is stored in the call's cell and the sentinel
trap is returned instead. Also returns the call states passed through. -/
def trampoline (f : Func) (caller : Caller) (buf : List Nat) (frame : CallFrame) :
    NativeRet × CallFrame × List CallState :=
  let args := decodeVals f.ty.params buf
  match invokeClosure f caller args with
  | .returned (.results out) =>
    (.results out, frame,
      [.NativeEntered, .ArgsDecoded, .ClosureRunning, .NormalReturn, .NativeExited])
  | .returned (.trap t) =>
    (.trap t, frame,
      [.NativeEntered, .ArgsDecoded, .ClosureRunning, .TrapReturned, .NativeExited])
  | .panicked v =>
    (.trap sentinelTrap, { captured := some v },
      [.NativeEntered, .ArgsDecoded, .ClosureRunning, .FaultCaptured, .NativeExited])

/-- Modelled from the spec: the result value of `Func.Call` (a Go
`interface{}`): nil, a single host scalar, or a list of Values. -/
inductive Results where
  | nil
  | scalar (v : HostScalar)
  | list (vs : List Val)
  deriving DecidableEq, Repr

/-- Modelled from the spec: "a result (or a sequence of results, or a single
scalar if there is exactly one result kind)"; no result is nil. -/
def packResults : List Val → Results
  | [] => .nil
  | [v] => .scalar v.Get
  | vs => .list vs

/-- Modelled from the spec: how `Func.Call` terminates: it returns a result
value and a trap (nil or not), or a host-language fault emerges from it. -/
inductive CallOutcome where
  | returned (results : Results) (trap : Option Trap)
  | panicked (v : Payload)
  deriving DecidableEq, Repr

/-- Modelled from the spec: everything observable of one call: how it
terminated, the call's fault cell afterwards, and the call states it passed
through. -/
structure CallRun where
  outcome : CallOutcome
  frame : CallFrame
  states : List CallState
  deriving DecidableEq, Repr

/-- Modelled from the spec: `Func.Call`, the host-side call entry point. The
arguments must match the parameter kinds (a mismatch is a fault at this
point); they are encoded into the native buffer and the engine enters the
trampoline. Back in host code a stored fault is taken out of the cell and
re-raised, discarding the sentinel trap; otherwise a trap is returned with nil
results, and results are decoded following the declared result kinds. -/
def Func.Call (f : Func) (caller : Caller) (args : List Val) : CallRun :=
  if args.map Val.Kind = f.ty.params then
    match trampoline f caller (encodeVals args) { captured := none } with
    | (ret, frame, states) =>
      match frame.captured with
      | some v =>
        { outcome := .panicked v, frame := { captured := none },
          states := .Idle :: states ++ [.HostFaultReraised] }
      | none =>
        match ret with
        | .trap t =>
          { outcome := .returned .nil (some t), frame := frame, states := .Idle :: states }
        | .results out =>
          { outcome := .returned (packResults (decodeVals f.ty.results out)) none,
            frame := frame, states := .Idle :: states }
  else
    { outcome := .panicked (.str wrongArgumentMessage), frame := { captured := none },
      states := [.Idle] }

/-- Go's `strings.Contains(s, substr)`. -/
def strings_Contains (s substr : String) : Prop := substr.data <:+: s.data

instance (s substr : String) : Decidable (strings_Contains s substr) := by
  unfold strings_Contains; infer_instance

/-! ## Histories of handle creation and finalization -/

/-- The native pointers held by the owning `Memory` handles of the heap. -/
def ownedPtrs (w : World) : List Ptr :=
  w.heap.filterMap fun c =>
    match c.obj with
    | .memory m => if m._owner = Iface.nil then some m._ptr else none
    | .ext _ => none

/-- One event of a history: a `Memory` handle is created with `mkMemory`, or the
collector finds the object at `a` unreachable and runs its finalizer. -/
inductive Event where
  | mk (ptr : Ptr) (freelist : FreeListRef) (owner : Iface)
  | fin (a : Addr)
  deriving DecidableEq, Repr

/-- The effect of an event on the world. -/
def Event.apply (w : World) : Event → World
  | .mk ptr freelist owner => (mkMemory ptr freelist owner w).2
  | .fin a => runFinalizer a w

/-- The engine hands a fresh native pointer to every owning handle: an owning
handle may only be created on a pointer no other owning handle holds. -/
def Event.admissible (w : World) : Event → Prop
  | .mk ptr _ owner => owner = Iface.nil → ptr ∉ ownedPtrs w
  | .fin _ => True

instance (w : World) (e : Event) : Decidable (e.admissible w) := by
  cases e <;> unfold Event.admissible <;> infer_instance

/-- The world after a history. -/
def runEvents (w : World) : List Event → World
  | [] => w
  | e :: es => runEvents (e.apply w) es

/-- Every event of the history is admissible in the world it happens in. -/
def admissibleEvents (w : World) : List Event → Prop
  | [] => True
  | e :: es => e.admissible w ∧ admissibleEvents (e.apply w) es

instance admissibleEvents.decidable : (w : World) → (es : List Event) →
    Decidable (admissibleEvents w es)
  | _, [] => isTrue trivial
  | w, e :: es =>
    have := admissibleEvents.decidable (e.apply w) es
    by unfold admissibleEvents; infer_instance

/-- A world in which no handle has been created yet: the heap is empty and no
pointer is pending in the memory queue of any registry. The other queues and
the native calls made so far are arbitrary. -/
def World.start (fls : FreeListRef → freeList) (calls : List NativeCall) : World :=
  { heap := []
    freelists := fun r => { fls r with memories := [] }
    calls := calls }

/-- A pointer `p` in the memory queue of registry `r` belongs to an owning
handle whose finalizer has run. -/
def queuedByFinalizer (w : World) (r : FreeListRef) (p : Ptr) : Prop :=
  ∃ (a : Addr) (c : Cell) (m : Memory), w.heap[a]? = some c ∧ c.obj = Obj.memory m ∧ m._owner = Iface.nil ∧
    m._ptr = p ∧ m.freelist = r ∧ c.finalized = true

/-- The invariant kept by every history: a handle with the memory finalizer
registered is owning and not yet finalized; distinct owning handles hold distinct
pointers; no memory queue holds a pointer twice; and every queued pointer was
put there by the finalizer of an owning handle. -/
structure QueueInv (w : World) : Prop where
  registered : ∀ (a : Addr) (c : Cell), w.heap[a]? = some c →
    c.finalizer = some FinalizerFn.memories →
      c.finalized = false ∧ ∀ m : Memory, c.obj = Obj.memory m → m._owner = Iface.nil
  distinct : ∀ (a b : Addr) (ca cb : Cell) (ma mb : Memory),
    w.heap[a]? = some ca → w.heap[b]? = some cb →
    ca.obj = Obj.memory ma → cb.obj = Obj.memory mb →
    ma._owner = Iface.nil → mb._owner = Iface.nil → ma._ptr = mb._ptr → a = b
  nodup : ∀ r : FreeListRef, (w.freelists r).memories.Nodup
  queued : ∀ (r : FreeListRef) (p : Ptr), p ∈ (w.freelists r).memories →
    queuedByFinalizer w r p

/-- A registry with every queue empty and the lock free. -/
def freeList.empty : freeList :=
  { lock := { locked := false }, memories := [], externs := [], rest := [] }

/-- An engine for examples: memories get the pointer `100 + n` at the `n`-th
native call, growth is accepted up to 16 pages per request, and the extern view
of the memory at `p` is at `p + 1`. -/
def exampleEngine : Engine :=
  { wasm_memory_new := fun calls _ _ => 100 + calls.length
    wasm_memory_grow := fun _ _ pages => decide (pages ≤ 16)
    wasm_memory_as_extern := fun _ p => p + 1 }

/-- A world for examples: an owning memory handle at address 0 (pointer 7,
registry 0, finalizer registered) and a borrowed one at address 1. -/
def exampleWorld : World :=
  { heap :=
      [{ obj := .memory { _ptr := 7, freelist := 0, _owner := Iface.nil },
         finalizer := some .memories, finalized := false },
       { obj := .memory { _ptr := 9, freelist := 0, _owner := Iface.other 3 },
         finalizer := none, finalized := false }]
    freelists := fun _ => freeList.empty
    calls := [] }

/-- The closure of `TestFuncArgs`: checks that it gets `(1, 2)` and returns
`(3.0, 4.0)`, given by their bit patterns. -/
def exampleArgsCallback : Callback := fun _ args =>
  if args = [Val.I32 1, Val.I64 2] then
    .returned ([Val.F32 1077936128, Val.F64 4616189618054758400], none)
  else .panicked (.str "bad argument")

/-- The closure of `TestFuncTrap`. -/
def exampleTrapCallback : Callback := fun _ _ => .returned ([], some (NewTrap "x"))

/-- The closure of `TestFuncWrapRetErrorTrap`, of Go type `func(*Caller) *Trap`. -/
def exampleTrapFn : HostFn :=
  { hasCaller := true
    params := []
    results := []
    hasTrap := true
    body := fun _ _ => .returned ([], some (NewTrap "x")) }

/-- The closure of `TestFuncPanic`. -/
def examplePanicCallback : Callback := fun _ _ => .panicked (.str "x")

/-- The closure of `TestFuncWrapPanic`, of Go type `func()`. -/
def examplePanicFn : HostFn :=
  { hasCaller := false
    params := []
    results := []
    hasTrap := false
    body := fun _ _ => .panicked (.str "x") }

/-- The closure of `TestFuncWrongRet`. -/
def exampleWrongRetCallback : Callback := fun _ _ => .returned ([Val.I64 3], none)

/-- Width of Go's `uint` on the 64-bit hosts the engine supports. -/
def uintBits : Nat := 64

/-! ## Handle construction and the collector: basic facts -/

theorem set_concat_length {α : Type} (l : List α) (c d : α) :
    (l ++ [c]).set l.length d = l ++ [d] := by
  induction l with
  | nil => rfl
  | cons x xs ih => simp [List.set, ih]

theorem mkMemory_fst (p : Ptr) (r : FreeListRef) (o : Iface) (w : World) :
    (mkMemory p r o w).1 = w.heap.length := by
  unfold mkMemory; split <;> rfl

theorem mkMemory_heap (p : Ptr) (r : FreeListRef) (o : Iface) (w : World) :
    (mkMemory p r o w).2.heap = w.heap ++
      [{ obj := .memory { _ptr := p, freelist := r, _owner := o },
         finalizer := if o = Iface.nil then some .memories else none,
         finalized := false }] := by
  unfold mkMemory SetFinalizer
  by_cases h : o = Iface.nil
  · simp [h, set_concat_length]
  · simp [h]

theorem mkMemory_freelists (p : Ptr) (r : FreeListRef) (o : Iface) (w : World) :
    (mkMemory p r o w).2.freelists = w.freelists := by
  unfold mkMemory SetFinalizer
  by_cases h : o = Iface.nil
  · simp [h]
  · simp [h]

theorem mkMemory_calls (p : Ptr) (r : FreeListRef) (o : Iface) (w : World) :
    (mkMemory p r o w).2.calls = w.calls := by
  unfold mkMemory SetFinalizer
  by_cases h : o = Iface.nil
  · simp [h]
  · simp [h]

theorem mkExtern_fst (p : Ptr) (r : FreeListRef) (o : Iface) (w : World) :
    (mkExtern p r o w).1 = w.heap.length := by
  unfold mkExtern; split <;> rfl

theorem mkExtern_heap (p : Ptr) (r : FreeListRef) (o : Iface) (w : World) :
    (mkExtern p r o w).2.heap = w.heap ++
      [{ obj := .ext { _ptr := p, freelist := r, _owner := o },
         finalizer := if o = Iface.nil then some .externs else none,
         finalized := false }] := by
  unfold mkExtern SetFinalizer
  by_cases h : o = Iface.nil
  · simp [h, set_concat_length]
  · simp [h]

theorem mkExtern_freelists (p : Ptr) (r : FreeListRef) (o : Iface) (w : World) :
    (mkExtern p r o w).2.freelists = w.freelists := by
  unfold mkExtern SetFinalizer
  by_cases h : o = Iface.nil
  · simp [h]
  · simp [h]

/-- Running the collector on an object without a registered finalizer changes
nothing. -/
theorem runFinalizer_of_unregistered (a : Addr) (w : World) (c : Cell)
    (hc : w.heap[a]? = some c) (hf : c.finalizer = none) : runFinalizer a w = w := by
  unfold runFinalizer
  rw [hc]
  simp [hf]

/-- The collector never makes a native call. -/
theorem runFinalizer_calls (a : Addr) (w : World) : (runFinalizer a w).calls = w.calls := by
  unfold runFinalizer
  split
  · split <;> simp [Memory.finalizer, Extern.finalizer]
  · rfl

/-- The collector never writes a handle object, and never registers a
finalizer: a cell is either untouched, or keeps its object and loses its
registration. -/
theorem runFinalizer_cell (a b : Addr) (w : World) (c : Cell) (hc : w.heap[b]? = some c) :
    (runFinalizer a w).heap[b]? = some c ∨
      (runFinalizer a w).heap[b]? =
        some { obj := c.obj, finalizer := none, finalized := true } := by
  unfold runFinalizer
  split
  · rename_i c0 h0
    split
    · by_cases hab : a = b
      · subst hab
        right
        have hlt : a < w.heap.length := by
          rcases Nat.lt_or_ge a w.heap.length with h | h
          · exact h
          · rw [List.getElem?_eq_none h] at hc; cases hc
        rw [hc] at h0; cases h0
        simp [Memory.finalizer, List.getElem?_set, hlt]
      · left; simp [Memory.finalizer, List.getElem?_set, hab, hc]
    · by_cases hab : a = b
      · subst hab
        right
        have hlt : a < w.heap.length := by
          rcases Nat.lt_or_ge a w.heap.length with h | h
          · exact h
          · rw [List.getElem?_eq_none h] at hc; cases hc
        rw [hc] at h0; cases h0
        simp [Extern.finalizer, List.getElem?_set, hlt]
      · left; simp [Extern.finalizer, List.getElem?_set, hab, hc]
    · left; exact hc
  · left; exact hc

theorem runFinalizer_length (a : Addr) (w : World) :
    (runFinalizer a w).heap.length = w.heap.length := by
  unfold runFinalizer
  split
  · split <;> simp [Memory.finalizer, Extern.finalizer]
  · rfl

theorem maybeGC_nil (w : World) : maybeGC [] w = w := rfl

theorem maybeGC_cons (a : Addr) (dead : List Addr) (w : World) :
    maybeGC (a :: dead) w = maybeGC dead (runFinalizer a w) := rfl

theorem maybeGC_calls (dead : List Addr) (w : World) : (maybeGC dead w).calls = w.calls := by
  induction dead generalizing w with
  | nil => rfl
  | cons a dead ih => rw [maybeGC_cons, ih, runFinalizer_calls]

theorem maybeGC_length (dead : List Addr) (w : World) :
    (maybeGC dead w).heap.length = w.heap.length := by
  induction dead generalizing w with
  | nil => rfl
  | cons a dead ih => rw [maybeGC_cons, ih, runFinalizer_length]

/-- Whatever the collector does, a cell keeps its object, and a cell without a
registered finalizer stays without one. -/
theorem maybeGC_cell (dead : List Addr) (b : Addr) (w : World) (c : Cell)
    (hc : w.heap[b]? = some c) :
    ∃ c2, (maybeGC dead w).heap[b]? = some c2 ∧ c2.obj = c.obj ∧
      (c.finalizer = none → c2.finalizer = none) := by
  induction dead generalizing w c with
  | nil => exact ⟨c, hc, rfl, fun h => h⟩
  | cons a dead ih =>
    rw [maybeGC_cons]
    rcases runFinalizer_cell a b w c hc with h | h
    · exact ih _ c h
    · obtain ⟨c2, h2, ho, hf⟩ := ih _ _ h
      exact ⟨c2, h2, ho, fun _ => hf rfl⟩

theorem maybeGC_memory (dead : List Addr) (a : Addr) (w : World) :
    (maybeGC dead w).memory? a = w.memory? a := by
  unfold World.memory?
  cases hc : w.heap[a]? with
  | none =>
    have hlen : w.heap.length ≤ a := by
      rcases Nat.lt_or_ge a w.heap.length with h | h
      · rw [List.getElem?_eq_getElem h] at hc; cases hc
      · exact h
    rw [List.getElem?_eq_none (by rw [maybeGC_length]; exact hlen)]
  | some c =>
    obtain ⟨c2, h2, ho, _⟩ := maybeGC_cell dead a w c hc
    rw [h2]; simp only [ho]

theorem mkMemory_new_cell (p : Ptr) (r : FreeListRef) (o : Iface) (w : World) :
    (mkMemory p r o w).2.heap[(mkMemory p r o w).1]? =
      some { obj := .memory { _ptr := p, freelist := r, _owner := o },
             finalizer := if o = Iface.nil then some .memories else none,
             finalized := false } := by
  rw [mkMemory_fst, mkMemory_heap, List.getElem?_concat_length]

theorem mkExtern_new_cell (p : Ptr) (r : FreeListRef) (o : Iface) (w : World) :
    (mkExtern p r o w).2.heap[(mkExtern p r o w).1]? =
      some { obj := .ext { _ptr := p, freelist := r, _owner := o },
             finalizer := if o = Iface.nil then some .externs else none,
             finalized := false } := by
  rw [mkExtern_fst, mkExtern_heap, List.getElem?_concat_length]

theorem getElem?_lt_of_some {α : Type} (l : List α) (a : Nat) (c : α)
    (h : l[a]? = some c) : a < l.length := by
  rcases Nat.lt_or_ge a l.length with h1 | h1
  · exact h1
  · rw [List.getElem?_eq_none h1] at h; cases h

/-- The collector's work at a `maybeGC` is a history of collector visits. -/
theorem maybeGC_eq_runEvents (dead : List Addr) (w : World) :
    maybeGC dead w = runEvents w (dead.map Event.fin) := by
  induction dead generalizing w with
  | nil => rfl
  | cons a dead ih => rw [maybeGC_cons, ih]; rfl

/-- Through any history a cell keeps its object, and a cell without a
registered finalizer stays without one. -/
theorem runEvents_cell (es : List Event) (b : Addr) (w : World) (c : Cell)
    (hc : w.heap[b]? = some c) :
    ∃ c2 : Cell, (runEvents w es).heap[b]? = some c2 ∧ c2.obj = c.obj ∧
      (c.finalizer = none → c2.finalizer = none) := by
  induction es generalizing w c with
  | nil => exact ⟨c, hc, rfl, fun h => h⟩
  | cons e es ih =>
    cases e with
    | mk p r o =>
      have h : (Event.apply w (Event.mk p r o)).heap[b]? = some c := by
        show (mkMemory p r o w).2.heap[b]? = some c
        rw [mkMemory_heap, List.getElem?_append_left (getElem?_lt_of_some _ _ _ hc)]
        exact hc
      exact ih _ c h
    | fin a =>
      rcases runFinalizer_cell a b w c hc with h | h
      · exact ih _ c h
      · obtain ⟨c2, h2, ho, hf⟩ := ih (Event.apply w (Event.fin a)) _ h
        exact ⟨c2, h2, ho, fun _ => hf rfl⟩

/-- A handle without a registered finalizer is never enqueued: whatever handles
were created and whatever the collector did in between, finding the handle
unreachable changes nothing. -/
theorem unregistered_never_enqueued (b : Addr) (w : World) (c : Cell)
    (hc : w.heap[b]? = some c) (hf : c.finalizer = none) (es : List Event) :
    runFinalizer b (runEvents w es) = runEvents w es := by
  obtain ⟨c2, h2, _, hn⟩ := runEvents_cell es b w c hc
  exact runFinalizer_of_unregistered b _ c2 h2 (hn hf)

/-! ## Histories: the queue invariant -/

theorem getElem?_concat_cases {α : Type} (l : List α) (x c : α) (a : Nat)
    (h : (l ++ [x])[a]? = some c) : l[a]? = some c ∨ (a = l.length ∧ c = x) := by
  rcases Nat.lt_trichotomy a l.length with hlt | heq | hgt
  · left; rw [List.getElem?_append_left hlt] at h; exact h
  · right; subst heq
    rw [List.getElem?_concat_length] at h
    exact ⟨rfl, (Option.some.inj h).symm⟩
  · rw [List.getElem?_eq_none (by simp; omega)] at h; cases h

theorem mem_ownedPtrs (w : World) (p : Ptr) :
    p ∈ ownedPtrs w ↔ ∃ (a : Addr) (c : Cell) (m : Memory), w.heap[a]? = some c ∧
      c.obj = Obj.memory m ∧ m._owner = Iface.nil ∧ m._ptr = p := by
  unfold ownedPtrs
  rw [List.mem_filterMap]
  constructor
  · rintro ⟨c, hc, hp⟩
    obtain ⟨a, ha⟩ := List.mem_iff_getElem?.mp hc
    cases hobj : c.obj with
    | memory m =>
      rw [hobj] at hp
      by_cases ho : m._owner = Iface.nil
      · simp [ho] at hp
        exact ⟨a, c, m, ha, hobj, ho, hp⟩
      · simp [ho] at hp
    | ext e => rw [hobj] at hp; cases hp
  · rintro ⟨a, c, m, ha, hobj, ho, hp⟩
    refine ⟨c, List.mem_iff_getElem?.mpr ⟨a, ha⟩, ?_⟩
    rw [hobj]; simp [ho, hp]

/-- A queued pointer stays attributed to its handle when the heap only grows
and cells only keep their object and their finalized mark. -/
theorem queuedByFinalizer_mono (w w2 : World) (r : FreeListRef) (p : Ptr)
    (hmono : ∀ (b : Addr) (c : Cell), w.heap[b]? = some c →
      ∃ c2 : Cell, w2.heap[b]? = some c2 ∧ c2.obj = c.obj ∧
        (c.finalized = true → c2.finalized = true))
    (h : queuedByFinalizer w r p) : queuedByFinalizer w2 r p := by
  obtain ⟨a, c, m, hc, hobj, ho, hp, hr, hf⟩ := h
  obtain ⟨c2, hc2, hobj2, hf2⟩ := hmono a c hc
  exact ⟨a, c2, m, hc2, hobj2.trans hobj, ho, hp, hr, hf2 hf⟩

theorem QueueInv_start (fls : FreeListRef → freeList) (calls : List NativeCall) :
    QueueInv (World.start fls calls) where
  registered := by intro a c h; simp [World.start] at h
  distinct := by intro a b ca cb ma mb h; simp [World.start] at h
  nodup := by intro r; simp [World.start]
  queued := by intro r p h; simp [World.start] at h

theorem QueueInv_mkMemory (w : World) (p : Ptr) (r : FreeListRef) (o : Iface)
    (hadm : o = Iface.nil → p ∉ ownedPtrs w) (inv : QueueInv w) :
    QueueInv (mkMemory p r o w).2 where
  registered := by
    intro a c hc hfin
    rw [mkMemory_heap] at hc
    rcases getElem?_concat_cases _ _ _ _ hc with h | ⟨_, h⟩
    · exact inv.registered a c h hfin
    · subst h
      by_cases ho : o = Iface.nil
      · refine ⟨rfl, ?_⟩
        intro m hm
        cases hm
        exact ho
      · simp [ho] at hfin
  distinct := by
    intro a b ca cb ma mb ha hb hoa hob hna hnb hpp
    rw [mkMemory_heap] at ha hb
    rcases getElem?_concat_cases _ _ _ _ ha with ha1 | ⟨ha1, ha2⟩
    · rcases getElem?_concat_cases _ _ _ _ hb with hb1 | ⟨hb1, hb2⟩
      · exact inv.distinct a b ca cb ma mb ha1 hb1 hoa hob hna hnb hpp
      · subst hb2
        cases hob
        exact absurd ((mem_ownedPtrs w p).mpr ⟨a, ca, ma, ha1, hoa, hna, hpp⟩) (hadm hnb)
    · rcases getElem?_concat_cases _ _ _ _ hb with hb1 | ⟨hb1, hb2⟩
      · subst ha2
        cases hoa
        exact absurd ((mem_ownedPtrs w p).mpr ⟨b, cb, mb, hb1, hob, hnb, hpp.symm⟩) (hadm hna)
      · rw [ha1, hb1]
  nodup := by
    intro r2
    rw [mkMemory_freelists]
    exact inv.nodup r2
  queued := by
    intro r2 p2 hp2
    rw [mkMemory_freelists] at hp2
    refine queuedByFinalizer_mono w _ r2 p2 ?_ (inv.queued r2 p2 hp2)
    intro b c hc
    refine ⟨c, ?_, rfl, fun h => h⟩
    rw [mkMemory_heap, List.getElem?_append_left (getElem?_lt_of_some _ _ _ hc)]
    exact hc

theorem runFinalizer_memories (a : Addr) (w : World) (c : Cell) (m : Memory)
    (hc : w.heap[a]? = some c) (hobj : c.obj = Obj.memory m)
    (hfin : c.finalizer = some FinalizerFn.memories) :
    runFinalizer a w = Memory.finalizer m
      { w with heap := w.heap.set a { c with finalizer := none, finalized := true } } := by
  unfold runFinalizer
  rw [hc]
  simp only [hfin, hobj]

theorem runFinalizer_externs (a : Addr) (w : World) (c : Cell) (e : Extern)
    (hc : w.heap[a]? = some c) (hobj : c.obj = Obj.ext e)
    (hfin : c.finalizer = some FinalizerFn.externs) :
    runFinalizer a w = Extern.finalizer e
      { w with heap := w.heap.set a { c with finalizer := none, finalized := true } } := by
  unfold runFinalizer
  rw [hc]
  simp only [hfin, hobj]

/-- The three ways the collector's visit of `a` can go: nothing happens, the
memory finalizer runs, or the extern finalizer runs. -/
theorem runFinalizer_cases (a : Addr) (w : World) :
    runFinalizer a w = w ∨
    (∃ (c : Cell) (m : Memory), w.heap[a]? = some c ∧ c.obj = Obj.memory m ∧
      c.finalizer = some FinalizerFn.memories ∧
      runFinalizer a w = Memory.finalizer m
        { w with heap := w.heap.set a { c with finalizer := none, finalized := true } }) ∨
    (∃ (c : Cell) (e : Extern), w.heap[a]? = some c ∧ c.obj = Obj.ext e ∧
      c.finalizer = some FinalizerFn.externs ∧
      runFinalizer a w = Extern.finalizer e
        { w with heap := w.heap.set a { c with finalizer := none, finalized := true } }) := by
  cases hc : w.heap[a]? with
  | none => left; unfold runFinalizer; rw [hc]
  | some c =>
    cases hfin : c.finalizer with
    | none => left; exact runFinalizer_of_unregistered a w c hc hfin
    | some fn =>
      cases fn with
      | memories =>
        cases hobj : c.obj with
        | memory m => right; left; exact ⟨c, m, rfl, hobj, hfin, runFinalizer_memories a w c m hc hobj hfin⟩
        | ext e => left; unfold runFinalizer; rw [hc]; simp only [hfin, hobj]
      | externs =>
        cases hobj : c.obj with
        | memory m => left; unfold runFinalizer; rw [hc]; simp only [hfin, hobj]
        | ext e => right; right; exact ⟨c, e, rfl, hobj, hfin, runFinalizer_externs a w c e hc hobj hfin⟩

/-- The collector keeps every cell's object and finalized mark. -/
theorem runFinalizer_mono (a : Addr) (w : World) (b : Addr) (c : Cell)
    (hc : w.heap[b]? = some c) :
    ∃ c2 : Cell, (runFinalizer a w).heap[b]? = some c2 ∧ c2.obj = c.obj ∧
      (c.finalized = true → c2.finalized = true) := by
  rcases runFinalizer_cell a b w c hc with h | h
  · exact ⟨c, h, rfl, fun h => h⟩
  · exact ⟨_, h, rfl, fun _ => rfl⟩

/-- Backwards: a cell found after the collector's visit was there before with
the same object; if it still has a registered finalizer it is untouched. -/
theorem runFinalizer_back (a : Addr) (w : World) (b : Addr) (c2 : Cell)
    (hc2 : (runFinalizer a w).heap[b]? = some c2) :
    ∃ c : Cell, w.heap[b]? = some c ∧ c.obj = c2.obj ∧
      (c2.finalizer ≠ none → c = c2) := by
  have hlt : b < w.heap.length := by
    have := getElem?_lt_of_some _ _ _ hc2
    rwa [runFinalizer_length] at this
  obtain ⟨c, hc⟩ : ∃ c, w.heap[b]? = some c := ⟨w.heap[b], List.getElem?_eq_getElem hlt⟩
  refine ⟨c, hc, ?_, ?_⟩
  · rcases runFinalizer_cell a b w c hc with h | h
    · rw [h] at hc2; cases hc2; rfl
    · rw [h] at hc2; cases hc2; rfl
  · intro hne
    rcases runFinalizer_cell a b w c hc with h | h
    · rw [h] at hc2; cases hc2; rfl
    · rw [h] at hc2; cases hc2; exact absurd rfl hne

theorem QueueInv_runFinalizer (w : World) (a : Addr) (inv : QueueInv w) :
    QueueInv (runFinalizer a w) := by
  have hreg : ∀ (b : Addr) (c : Cell), (runFinalizer a w).heap[b]? = some c →
      c.finalizer = some FinalizerFn.memories →
        c.finalized = false ∧ ∀ m : Memory, c.obj = Obj.memory m → m._owner = Iface.nil := by
    intro b c2 hc2 hfin
    obtain ⟨c, hc, _, heq⟩ := runFinalizer_back a w b c2 hc2
    have : c = c2 := heq (by rw [hfin]; simp)
    subst this
    exact inv.registered b c hc hfin
  have hdist : ∀ (b d : Addr) (cb cd : Cell) (mb md : Memory),
      (runFinalizer a w).heap[b]? = some cb → (runFinalizer a w).heap[d]? = some cd →
      cb.obj = Obj.memory mb → cd.obj = Obj.memory md →
      mb._owner = Iface.nil → md._owner = Iface.nil → mb._ptr = md._ptr → b = d := by
    intro b d cb cd mb md hb hd hob hod hnb hnd hpp
    obtain ⟨cb0, hb0, hbo, _⟩ := runFinalizer_back a w b cb hb
    obtain ⟨cd0, hd0, hdo, _⟩ := runFinalizer_back a w d cd hd
    exact inv.distinct b d cb0 cd0 mb md hb0 hd0 (hbo.trans hob) (hdo.trans hod) hnb hnd hpp
  have hq : ∀ (r : FreeListRef) (p : Ptr), queuedByFinalizer w r p →
      queuedByFinalizer (runFinalizer a w) r p :=
    fun r p h => queuedByFinalizer_mono w _ r p (runFinalizer_mono a w) h
  rcases runFinalizer_cases a w with h | ⟨c, m, hc, hobj, hfin, h⟩ | ⟨c, e, hc, hobj, hfin, h⟩
  · rw [h]; exact inv
  · -- the memory finalizer ran on the handle at `a`
    obtain ⟨hnf, hown⟩ := inv.registered a c hc hfin
    have ho : m._owner = Iface.nil := hown m hobj
    have hfl : ∀ r : FreeListRef, ((runFinalizer a w).freelists r).memories =
        if r = m.freelist then (w.freelists r).memories ++ [m._ptr]
        else (w.freelists r).memories := by
      intro r
      rw [h]
      by_cases hr : r = m.freelist
      · subst hr; simp [Memory.finalizer]
      · simp [Memory.finalizer, Function.update_noteq hr, hr]
    have hnew : queuedByFinalizer (runFinalizer a w) m.freelist m._ptr := by
      refine ⟨a, { c with finalizer := none, finalized := true }, m, ?_, hobj, ho, rfl, rfl, rfl⟩
      rw [h]
      simp [Memory.finalizer, List.getElem?_set, getElem?_lt_of_some _ _ _ hc]
    have hfresh : m._ptr ∉ (w.freelists m.freelist).memories := by
      intro hin
      obtain ⟨a2, c2, m2, hc2, hobj2, ho2, hp2, _, hf2⟩ := inv.queued _ _ hin
      have : a2 = a := inv.distinct a2 a c2 c m2 m hc2 hc hobj2 hobj ho2 ho hp2
      subst this
      rw [hc] at hc2; cases hc2
      rw [hnf] at hf2; cases hf2
    refine ⟨hreg, hdist, ?_, ?_⟩
    · intro r
      rw [hfl r]
      by_cases hr : r = m.freelist
      · subst hr
        simp only [if_true]
        exact List.Nodup.append (inv.nodup _) (List.nodup_singleton _)
          (by
            intro x hx1 hx2
            rw [List.mem_singleton] at hx2
            subst hx2
            exact hfresh hx1)
      · simp only [hr, if_false]
        exact inv.nodup r
    · intro r p hp
      rw [hfl r] at hp
      by_cases hr : r = m.freelist
      · subst hr
        simp only [if_true, List.mem_append, List.mem_singleton] at hp
        rcases hp with hp | hp
        · exact hq _ _ (inv.queued _ _ hp)
        · subst hp; exact hnew
      · simp only [hr, if_false] at hp
        exact hq _ _ (inv.queued _ _ hp)
  · -- the extern finalizer ran: no memory queue changes
    have hfl : ∀ r : FreeListRef, ((runFinalizer a w).freelists r).memories =
        (w.freelists r).memories := by
      intro r
      rw [h]
      by_cases hr : r = e.freelist
      · subst hr; simp [Extern.finalizer]
      · simp [Extern.finalizer, Function.update_noteq hr]
    refine ⟨hreg, hdist, ?_, ?_⟩
    · intro r; rw [hfl r]; exact inv.nodup r
    · intro r p hp
      rw [hfl r] at hp
      exact hq _ _ (inv.queued _ _ hp)

theorem QueueInv_runEvents (es : List Event) (w : World) (inv : QueueInv w)
    (hadm : admissibleEvents w es) : QueueInv (runEvents w es) := by
  induction es generalizing w with
  | nil => exact inv
  | cons e es ih =>
    obtain ⟨h1, h2⟩ := hadm
    refine ih _ ?_ h2
    cases e with
    | mk p r o => exact QueueInv_mkMemory w p r o h1 inv
    | fin a => exact QueueInv_runFinalizer w a inv

/-! ## Claims about `memory.go` -/

/-- C1: `mkMemory p r o` registers the reclamation finalizer on the new handle
if and only if `o` is the nil interface. When `o` is nil the handle is owning:
the collector finding it unreachable appends `p` to the memory queue of `r`.
A handle built with a non-nil owner is never enqueued: whatever handles were created and whatever the collector did
in between, finding it unreachable leaves the whole world (every registry queue
included) unchanged. A handle
built by `NewMemory` has owner nil, the store's registry, and the finalizer
registered, so it is owning. -/
theorem mkMemory_registers_finalizer_iff_owner_nil
    (p : Ptr) (r : FreeListRef) (o : Iface) (w : World) :
    (∃ c : Cell, (mkMemory p r o w).2.heap[(mkMemory p r o w).1]? = some c ∧
        c.obj = Obj.memory { _ptr := p, freelist := r, _owner := o } ∧
        (c.finalizer = some FinalizerFn.memories ↔ o = Iface.nil) ∧
        (c.finalizer = none ↔ o ≠ Iface.nil)) ∧
    (o = Iface.nil →
        ((runFinalizer (mkMemory p r o w).1 (mkMemory p r o w).2).freelists r).memories =
          (w.freelists r).memories ++ [p]) ∧
    (o ≠ Iface.nil → ∀ es : List Event,
        runFinalizer (mkMemory p r o w).1 (runEvents (mkMemory p r o w).2 es) =
          runEvents (mkMemory p r o w).2 es) ∧
    (∀ (eng : Engine) (store : Store) (ty : MemoryType) (dead₁ dead₂ : List Addr),
        ∃ (c : Cell) (m : Memory),
          (NewMemory eng store ty dead₁ dead₂ w).2.heap[
            (NewMemory eng store ty dead₁ dead₂ w).1]? = some c ∧
          c.obj = Obj.memory m ∧ m._owner = Iface.nil ∧ m.freelist = store.freelist ∧
          c.finalizer = some FinalizerFn.memories) := by
  refine ⟨⟨_, mkMemory_new_cell p r o w, rfl, ?_, ?_⟩, ?_, ?_, ?_⟩
  · by_cases h : o = Iface.nil <;> simp [h]
  · by_cases h : o = Iface.nil <;> simp [h]
  · intro ho
    rw [runFinalizer_memories _ _ _ _ (mkMemory_new_cell p r o w) rfl (by simp [ho])]
    simp [Memory.finalizer, mkMemory_freelists]
  · intro ho es
    exact unregistered_never_enqueued _ _ _ (mkMemory_new_cell p r o w) (by simp [ho]) es
  · intro eng store ty dead₁ dead₂
    unfold NewMemory
    exact ⟨_, _, mkMemory_new_cell _ _ _ _, rfl, rfl, rfl, by simp⟩

theorem mkMemory_registers_finalizer_iff_owner_nil_witness :
    (∃ c : Cell, (mkMemory 5 0 (Iface.other 3) exampleWorld).2.heap[
          (mkMemory 5 0 (Iface.other 3) exampleWorld).1]? = some c ∧
        c.obj = Obj.memory { _ptr := 5, freelist := 0, _owner := Iface.other 3 } ∧
        (c.finalizer = some FinalizerFn.memories ↔ Iface.other 3 = Iface.nil) ∧
        (c.finalizer = none ↔ Iface.other 3 ≠ Iface.nil)) ∧
    runFinalizer (mkMemory 5 0 (Iface.other 3) exampleWorld).1
        (runEvents (mkMemory 5 0 (Iface.other 3) exampleWorld).2 [Event.fin 0]) =
      runEvents (mkMemory 5 0 (Iface.other 3) exampleWorld).2 [Event.fin 0] :=
  have h := mkMemory_registers_finalizer_iff_owner_nil 5 0 (Iface.other 3) exampleWorld
  ⟨h.1, h.2.2.1 (by decide) [Event.fin 0]⟩

/-- C2: when the collector runs the finalizer of a `Memory` handle with
pointer `m._ptr` (the finalizer is registered on it), the memory queue of the
handle's registry becomes the old queue followed by the pointer, so every
earlier entry keeps its position and none is removed; the registry's other
queues, every other registry, and the record of native calls (hence no native
free call) are unchanged, and the lock is released again. -/
theorem finalizer_appends_pointer (a : Addr) (w : World) (c : Cell) (m : Memory)
    (hc : w.heap[a]? = some c) (hobj : c.obj = Obj.memory m)
    (hfin : c.finalizer = some FinalizerFn.memories) :
    ((runFinalizer a w).freelists m.freelist).memories =
        (w.freelists m.freelist).memories ++ [m._ptr] ∧
    (∀ i : Nat, i < (w.freelists m.freelist).memories.length →
        ((runFinalizer a w).freelists m.freelist).memories[i]? =
          (w.freelists m.freelist).memories[i]?) ∧
    ((runFinalizer a w).freelists m.freelist).externs = (w.freelists m.freelist).externs ∧
    ((runFinalizer a w).freelists m.freelist).rest = (w.freelists m.freelist).rest ∧
    ((runFinalizer a w).freelists m.freelist).lock.locked = false ∧
    (∀ r : FreeListRef, r ≠ m.freelist → (runFinalizer a w).freelists r = w.freelists r) ∧
    (runFinalizer a w).calls = w.calls := by
  have hrun : runFinalizer a w = Memory.finalizer m
      { w with heap := w.heap.set a { c with finalizer := none, finalized := true } } := by
    unfold runFinalizer
    rw [hc]
    simp only [hfin, hobj]
  have hq : ((runFinalizer a w).freelists m.freelist).memories =
      (w.freelists m.freelist).memories ++ [m._ptr] := by
    rw [hrun]; simp [Memory.finalizer]
  refine ⟨hq, ?_, ?_, ?_, ?_, ?_, runFinalizer_calls a w⟩
  · intro i hi
    rw [hq, List.getElem?_append_left hi]
  · rw [hrun]; simp [Memory.finalizer]
  · rw [hrun]; simp [Memory.finalizer]
  · rw [hrun]; simp [Memory.finalizer, Mutex.Unlock]
  · intro r hr
    rw [hrun]; simp [Memory.finalizer, Function.update_noteq hr]

theorem finalizer_appends_pointer_witness :
    ((runFinalizer 0 exampleWorld).freelists 0).memories = [] ++ [7] ∧
    (runFinalizer 0 exampleWorld).calls = [] :=
  have h := finalizer_appends_pointer 0 exampleWorld
    { obj := .memory { _ptr := 7, freelist := 0, _owner := Iface.nil },
      finalizer := some .memories, finalized := false }
    { _ptr := 7, freelist := 0, _owner := Iface.nil } rfl rfl rfl
  ⟨h.1, h.2.2.2.2.2.2⟩

theorem Memory_ptr_eq (a : Addr) (dead : List Addr) (w : World) (m : Memory)
    (hm : w.memory? a = some m) :
    Memory.ptr a dead w = some (m._ptr, maybeGC dead w) := by
  unfold Memory.ptr; rw [hm]

/-- What `Grow` does on a `Memory` handle: the engine is asked for the low 32
bits of `delta`, and its answer is returned. -/
theorem Grow_eq (eng : Engine) (a : Addr) (delta : Nat) (dead : List Addr) (w : World)
    (m : Memory) (hm : w.memory? a = some m) :
    Memory.Grow eng a delta dead w =
      some (eng.wasm_memory_grow w.calls m._ptr (delta % 2 ^ 32),
        { maybeGC dead w with
          calls := w.calls ++ [NativeCall.memory_grow m._ptr (delta % 2 ^ 32)] }) := by
  unfold Memory.Grow
  rw [Memory_ptr_eq a dead w m hm]
  simp only [maybeGC_calls]

/-- Below `2 ^ 32` the conversion loses nothing: the engine is asked for
exactly `delta` pages. -/
theorem Grow_pages_exact_of_lt (eng : Engine) (a : Addr) (delta : Nat) (dead : List Addr)
    (w : World) (m : Memory) (hm : w.memory? a = some m) (hlt : delta < 2 ^ 32) :
    (Memory.Grow eng a delta dead w).map (fun (r : Bool × World) => r.2.calls) =
      some (w.calls ++ [NativeCall.memory_grow m._ptr delta]) := by
  rw [Grow_eq eng a delta dead w m hm, Nat.mod_eq_of_lt hlt]
  rfl

/-- C5 (the code at the failing input): on a 64-bit host `delta = 2 ^ 32` is a
value of `uint`; `Grow` on the memory with pointer 7 hands the engine a page
count of 0, not `2 ^ 32`, and reports the engine's acceptance of that
zero-page growth. -/
theorem Grow_truncates_page_count :
    4294967296 < 2 ^ uintBits ∧
    (Memory.Grow exampleEngine 0 4294967296 [] exampleWorld).map
        (fun (r : Bool × World) => (r.1, r.2.calls)) =
      some (true, [NativeCall.memory_grow 7 0]) := by
  decide

/-- C6: on every `Memory` handle and for every `delta`, `Grow` returns (it
raises no fault) exactly the boolean the engine's grow call answered, be it
a rejection or an acceptance; that call is the only native call it makes, and
the handle's fields are the same afterwards. -/
theorem Grow_returns_engine_answer (eng : Engine) (a : Addr) (delta : Nat)
    (dead : List Addr) (w : World) (m : Memory) (hm : w.memory? a = some m) :
    ∃ w2 : World,
      Memory.Grow eng a delta dead w =
        some (eng.wasm_memory_grow w.calls m._ptr (delta % 2 ^ 32), w2) ∧
      w2.calls = w.calls ++ [NativeCall.memory_grow m._ptr (delta % 2 ^ 32)] ∧
      w2.memory? a = some m := by
  refine ⟨_, Grow_eq eng a delta dead w m hm, rfl, ?_⟩
  have h := maybeGC_memory dead a w
  rw [hm] at h
  exact h

theorem Grow_returns_engine_answer_witness :
    ∃ w2 : World,
      Memory.Grow exampleEngine 0 17 [1] exampleWorld =
        some (exampleEngine.wasm_memory_grow exampleWorld.calls 7 (17 % 2 ^ 32), w2) ∧
      w2.calls = exampleWorld.calls ++ [NativeCall.memory_grow 7 (17 % 2 ^ 32)] ∧
      w2.memory? 0 = some { _ptr := 7, freelist := 0, _owner := Iface.nil } :=
  Grow_returns_engine_answer exampleEngine 0 17 [1] exampleWorld
    { _ptr := 7, freelist := 0, _owner := Iface.nil } rfl

theorem Memory_owner_eq (a : Addr) (w : World) (m : Memory) (hm : w.memory? a = some m) :
    Memory.owner a w = some (if m._owner ≠ Iface.nil then m._owner else Iface.memory a) := by
  unfold Memory.owner; rw [hm]
  by_cases h : m._owner = Iface.nil <;> simp [h]

/-- C3: on every `Memory` handle `AsExtern` returns a view built by
`mkExtern` on the engine's extern pointer with the handle's registry and with
`m.owner()` as owner; that owner is never the nil interface: it is the handle's
own owner when the handle is borrowed and the handle itself when it is owning.
So the view is created without a finalizer, and whatever handles were created
and whatever the collector did in between, finding the view unreachable leaves
the whole world (every registry queue included) unchanged. -/
theorem AsExtern_view_is_borrowed (eng : Engine) (a : Addr) (dead : List Addr)
    (w : World) (m : Memory) (hm : w.memory? a = some m) :
    ∃ (e : Addr) (w2 : World) (o : Iface),
      Memory.AsExtern eng a dead w = some (e, w2) ∧
      Memory.owner a w = some o ∧ o ≠ Iface.nil ∧
      (m._owner ≠ Iface.nil → o = m._owner) ∧
      (m._owner = Iface.nil → o = Iface.memory a) ∧
      w2.heap[e]? = some
        { obj := Obj.ext { _ptr := eng.wasm_memory_as_extern w.calls m._ptr,
                           freelist := m.freelist, _owner := o },
          finalizer := none, finalized := false } ∧
      (∀ es : List Event, runFinalizer e (runEvents w2 es) = runEvents w2 es) := by
  have hne : (if m._owner ≠ Iface.nil then m._owner else Iface.memory a) ≠ Iface.nil := by
    by_cases h : m._owner = Iface.nil <;> simp [h]
  have hm1 : ({ maybeGC dead w with
      calls := w.calls ++ [NativeCall.memory_as_ext m._ptr] } : World).memory? a = some m := by
    have h := maybeGC_memory dead a w
    rw [hm] at h
    exact h
  have hcell := mkExtern_new_cell (eng.wasm_memory_as_extern w.calls m._ptr) m.freelist
    (if m._owner ≠ Iface.nil then m._owner else Iface.memory a)
    { maybeGC dead w with calls := w.calls ++ [NativeCall.memory_as_ext m._ptr] }
  dsimp only at hm1 hcell
  rw [if_neg hne] at hcell
  refine ⟨_, _, _, ?_, Memory_owner_eq a w m hm, hne, ?_, ?_, hcell, ?_⟩
  · unfold Memory.AsExtern
    rw [Memory_ptr_eq a dead w m hm]
    simp only [hm1, Memory_owner_eq a _ m hm1, maybeGC_calls]
  · intro h; simp [h]
  · intro h; simp [h]
  · intro es
    exact unregistered_never_enqueued _ _ _ hcell rfl es

theorem AsExtern_view_is_borrowed_witness :
    ∃ (e : Addr) (w2 : World) (o : Iface),
      Memory.AsExtern exampleEngine 0 [1] exampleWorld = some (e, w2) ∧
      Memory.owner 0 exampleWorld = some o ∧ o ≠ Iface.nil ∧
      (Iface.nil ≠ Iface.nil → o = Iface.nil) ∧
      (Iface.nil = Iface.nil → o = Iface.memory 0) ∧
      w2.heap[e]? = some
        { obj := Obj.ext { _ptr := exampleEngine.wasm_memory_as_extern exampleWorld.calls 7,
                           freelist := 0, _owner := o },
          finalizer := none, finalized := false } ∧
      (∀ es : List Event, runFinalizer e (runEvents w2 es) = runEvents w2 es) :=
  AsExtern_view_is_borrowed exampleEngine 0 [1] exampleWorld
    { _ptr := 7, freelist := 0, _owner := Iface.nil } rfl

/-- C4: in every world reached from a start world (empty heap, empty memory
queues) by a history of `mkMemory` calls, each owning handle being created on a
pointer no other owning handle holds, and of collector visits (which run a
handle's finalizer at most once), no registry's memory queue holds a pointer
twice, and every pointer in it is the pointer of an owning handle of that
registry whose finalizer has run. -/
theorem memory_queue_no_duplicates (fls : FreeListRef → freeList) (calls : List NativeCall)
    (es : List Event) (hadm : admissibleEvents (World.start fls calls) es) :
    ∀ r : FreeListRef,
      ((runEvents (World.start fls calls) es).freelists r).memories.Nodup ∧
      ∀ p : Ptr, p ∈ ((runEvents (World.start fls calls) es).freelists r).memories →
        queuedByFinalizer (runEvents (World.start fls calls) es) r p := by
  intro r
  have inv := QueueInv_runEvents es _ (QueueInv_start fls calls) hadm
  exact ⟨inv.nodup r, inv.queued r⟩

theorem memory_queue_no_duplicates_witness :
    ((runEvents (World.start (fun _ => freeList.empty) [])
      [.mk 7 0 .nil, .mk 7 0 (.other 1), .mk 8 0 .nil, .fin 2, .fin 0, .fin 1,
        .fin 0]).freelists 0).memories.Nodup ∧
    ∀ p : Ptr, p ∈ ((runEvents (World.start (fun _ => freeList.empty) [])
      [.mk 7 0 .nil, .mk 7 0 (.other 1), .mk 8 0 .nil, .fin 2, .fin 0, .fin 1,
        .fin 0]).freelists 0).memories →
      queuedByFinalizer (runEvents (World.start (fun _ => freeList.empty) [])
        [.mk 7 0 .nil, .mk 7 0 (.other 1), .mk 8 0 .nil, .fin 2, .fin 0, .fin 1,
          .fin 0]) 0 p :=
  memory_queue_no_duplicates (fun _ => freeList.empty) []
    [.mk 7 0 .nil, .mk 7 0 (.other 1), .mk 8 0 .nil, .fin 2, .fin 0, .fin 1, .fin 0]
    (by decide) 0

/-- Why the history must give every owning handle its own pointer: two owning
handles on the same pointer put it in the queue twice. -/
theorem shared_pointer_is_queued_twice :
    ((runEvents (World.start (fun _ => freeList.empty) [])
      [.mk 7 0 .nil, .mk 7 0 .nil, .fin 0, .fin 1]).freelists 0).memories = [7, 7] := by
  decide

/-! ## The host-function bridge: basic facts -/

theorem Val_ofBits_bits (v : Val) : Val.ofBits v.Kind v.bits = v := by
  cases v <;> rfl

/-- Encoding a sequence of Values and decoding it following their own kinds
gives the sequence back. -/
theorem decode_encode (vs : List Val) : decodeVals (vs.map Val.Kind) (encodeVals vs) = vs := by
  induction vs with
  | nil => rfl
  | cons v vs ih =>
    unfold decodeVals encodeVals at *
    simp only [List.map_cons, List.zipWith_cons_cons, Val_ofBits_bits, ih]

theorem decode_encode_of_kinds (kinds : List ValKind) (vs : List Val)
    (h : vs.map Val.Kind = kinds) : decodeVals kinds (encodeVals vs) = vs := by
  rw [← h]; exact decode_encode vs

/-- A call whose closure returns values of the declared kinds and no trap. -/
theorem Call_of_returned (f : Func) (caller : Caller) (args vals : List Val)
    (hargs : args.map Val.Kind = f.ty.params)
    (hcb : f.callback caller args = Exec.returned (vals, none))
    (hres : vals.map Val.Kind = f.ty.results) :
    f.Call caller args =
      { outcome := .returned (packResults vals) none, frame := { captured := none },
        states := [.Idle, .NativeEntered, .ArgsDecoded, .ClosureRunning, .NormalReturn,
          .NativeExited] } := by
  unfold Func.Call trampoline invokeClosure
  simp [hargs, decode_encode_of_kinds _ _ hargs, hcb, hres, decode_encode_of_kinds _ _ hres]

/-- A call whose closure returns a trap. -/
theorem Call_of_trap (f : Func) (caller : Caller) (args rs : List Val) (t : Trap)
    (hargs : args.map Val.Kind = f.ty.params)
    (hcb : f.callback caller args = Exec.returned (rs, some t)) :
    f.Call caller args =
      { outcome := .returned .nil (some t), frame := { captured := none },
        states := [.Idle, .NativeEntered, .ArgsDecoded, .ClosureRunning, .TrapReturned,
          .NativeExited] } := by
  unfold Func.Call trampoline invokeClosure
  simp [hargs, decode_encode_of_kinds _ _ hargs, hcb]

/-- A call whose closure raises a fault. -/
theorem Call_of_panicked (f : Func) (caller : Caller) (args : List Val) (v : Payload)
    (hargs : args.map Val.Kind = f.ty.params)
    (hcb : f.callback caller args = Exec.panicked v) :
    f.Call caller args =
      { outcome := .panicked v, frame := { captured := none },
        states := [.Idle, .NativeEntered, .ArgsDecoded, .ClosureRunning, .FaultCaptured,
          .NativeExited, .HostFaultReraised] } := by
  unfold Func.Call trampoline invokeClosure
  simp [hargs, decode_encode_of_kinds _ _ hargs, hcb]

/-- A call whose closure returns values not of the declared kinds. -/
theorem Call_of_wrong_kinds (f : Func) (caller : Caller) (args vals : List Val)
    (hargs : args.map Val.Kind = f.ty.params)
    (hcb : f.callback caller args = Exec.returned (vals, none))
    (hres : vals.map Val.Kind ≠ f.ty.results) :
    f.Call caller args =
      { outcome := .panicked (.str wrongResultMessage), frame := { captured := none },
        states := [.Idle, .NativeEntered, .ArgsDecoded, .ClosureRunning, .FaultCaptured,
          .NativeExited, .HostFaultReraised] } := by
  unfold Func.Call trampoline invokeClosure
  simp [hargs, decode_encode_of_kinds _ _ hargs, hcb, hres]

/-! ## Claims about the host-function bridge -/

/-- C7: for every signature and closure, when the arguments match the
parameter kinds and the closure, applied to exactly these arguments in call
order, returns values of the declared result kinds and no trap, `Func.Call`
returns with a nil trap and the closure's values in the same order: nil for no
value, the bare host scalar for one, the list of Values for two or more. -/
theorem Call_returns_closure_values (ty : FuncType) (cb : Callback) (caller : Caller)
    (args vals : List Val)
    (hargs : args.map Val.Kind = ty.params)
    (hcb : cb caller args = Exec.returned (vals, none))
    (hres : vals.map Val.Kind = ty.results) :
    decodeVals ty.params (encodeVals args) = args ∧
    ∃ results : Results,
      ((NewFunc ty cb).Call caller args).outcome = CallOutcome.returned results none ∧
      (vals = [] → results = Results.nil) ∧
      (∀ v : Val, vals = [v] → results = Results.scalar v.Get) ∧
      (2 ≤ vals.length → results = Results.list vals) := by
  refine ⟨decode_encode_of_kinds _ _ hargs, packResults vals, ?_, ?_, ?_, ?_⟩
  · rw [Call_of_returned (NewFunc ty cb) caller args vals hargs hcb hres]
  · intro h; subst h; rfl
  · intro v h; subst h; rfl
  · intro h
    match vals, h with
    | _ :: _ :: _, _ => rfl

theorem Call_returns_closure_values_witness :
    decodeVals [ValKind.I32, ValKind.I64] (encodeVals [Val.I32 1, Val.I64 2]) =
      [Val.I32 1, Val.I64 2] ∧
    ∃ results : Results,
      ((NewFunc { params := [.I32, .I64], results := [.F32, .F64] } exampleArgsCallback).Call
        { ptr := 0 } [Val.I32 1, Val.I64 2]).outcome = CallOutcome.returned results none ∧
      (([Val.F32 1077936128, Val.F64 4616189618054758400] : List Val) = [] →
        results = Results.nil) ∧
      (∀ v : Val, [Val.F32 1077936128, Val.F64 4616189618054758400] = [v] →
        results = Results.scalar v.Get) ∧
      (2 ≤ ([Val.F32 1077936128, Val.F64 4616189618054758400] : List Val).length →
        results = Results.list [Val.F32 1077936128, Val.F64 4616189618054758400]) :=
  Call_returns_closure_values { params := [.I32, .I64], results := [.F32, .F64] }
    exampleArgsCallback { ptr := 0 } [Val.I32 1, Val.I64 2]
    [Val.F32 1077936128, Val.F64 4616189618054758400] rfl rfl rfl

/-- C8: for every message `s`, when the closure of a host function returns a
trap with message `s`, through the generic callback's trap return or through
the trailing trap return of a `WrapFunc` closure, `Func.Call` returns nil
results and a non-nil trap whose `Message()` is exactly `s`. -/
theorem Call_returns_closure_trap (s : String) :
    (∀ (ty : FuncType) (cb : Callback) (caller : Caller) (args rs : List Val),
      args.map Val.Kind = ty.params →
      cb caller args = Exec.returned (rs, some (NewTrap s)) →
      ∃ t : Trap, ((NewFunc ty cb).Call caller args).outcome =
          CallOutcome.returned Results.nil (some t) ∧ t.Message = s) ∧
    (∀ (fn : HostFn) (caller : Caller) (args : List Val) (rs : List HostScalar),
      fn.hasTrap = true →
      args.map Val.Kind = fn.params →
      fn.body (if fn.hasCaller then some caller else none) (args.map Val.Get) =
        Exec.returned (rs, some (NewTrap s)) →
      ∃ t : Trap, ((WrapFunc fn).Call caller args).outcome =
          CallOutcome.returned Results.nil (some t) ∧ t.Message = s) := by
  constructor
  · intro ty cb caller args rs hargs hcb
    refine ⟨NewTrap s, ?_, rfl⟩
    rw [Call_of_trap (NewFunc ty cb) caller args rs (NewTrap s) hargs hcb]
  · intro fn caller args rs htrap hargs hbody
    refine ⟨NewTrap s, ?_, rfl⟩
    rw [Call_of_trap (WrapFunc fn) caller args (rs.map ValOf) (NewTrap s) hargs
      (by simp only [WrapFunc, hbody, htrap, if_true])]

theorem Call_returns_closure_trap_witness :
    (∃ t : Trap, ((NewFunc { params := [], results := [] } exampleTrapCallback).Call
        { ptr := 0 } []).outcome = CallOutcome.returned Results.nil (some t) ∧
      t.Message = "x") ∧
    (∃ t : Trap, ((WrapFunc exampleTrapFn).Call { ptr := 0 } []).outcome =
        CallOutcome.returned Results.nil (some t) ∧ t.Message = "x") :=
  ⟨(Call_returns_closure_trap "x").1 { params := [], results := [] } exampleTrapCallback
      { ptr := 0 } [] [] rfl rfl,
   (Call_returns_closure_trap "x").2 exampleTrapFn { ptr := 0 } [] [] rfl rfl rfl⟩

/-- C9: for every payload `v`, when the closure of a host function built with
`NewFunc` or `WrapFunc` raises a fault with value `v`, `Func.Call` returns
neither results nor a trap: the fault emerges from `Func.Call` with the same
value `v`; it is re-raised exactly once and the call's fault cell is empty
afterwards. -/
theorem Call_reraises_closure_panic (v : Payload) :
    (∀ (ty : FuncType) (cb : Callback) (caller : Caller) (args : List Val),
      args.map Val.Kind = ty.params →
      cb caller args = Exec.panicked v →
      ((NewFunc ty cb).Call caller args).outcome = CallOutcome.panicked v ∧
      ((NewFunc ty cb).Call caller args).frame.captured = none ∧
      ((NewFunc ty cb).Call caller args).states.count CallState.HostFaultReraised = 1) ∧
    (∀ (fn : HostFn) (caller : Caller) (args : List Val),
      args.map Val.Kind = fn.params →
      fn.body (if fn.hasCaller then some caller else none) (args.map Val.Get) =
        Exec.panicked v →
      ((WrapFunc fn).Call caller args).outcome = CallOutcome.panicked v ∧
      ((WrapFunc fn).Call caller args).frame.captured = none ∧
      ((WrapFunc fn).Call caller args).states.count CallState.HostFaultReraised = 1) := by
  constructor
  · intro ty cb caller args hargs hcb
    rw [Call_of_panicked (NewFunc ty cb) caller args v hargs hcb]
    exact ⟨rfl, rfl, by simp⟩
  · intro fn caller args hargs hbody
    rw [Call_of_panicked (WrapFunc fn) caller args v hargs
      (by simp only [WrapFunc, hbody])]
    exact ⟨rfl, rfl, by simp⟩

theorem Call_reraises_closure_panic_witness :
    (((NewFunc { params := [], results := [] } examplePanicCallback).Call
        { ptr := 0 } []).outcome = CallOutcome.panicked (.str "x")) ∧
    (((WrapFunc examplePanicFn).Call { ptr := 0 } []).outcome =
        CallOutcome.panicked (.str "x")) :=
  ⟨((Call_reraises_closure_panic (.str "x")).1 { params := [], results := [] }
      examplePanicCallback { ptr := 0 } [] rfl rfl).1,
   ((Call_reraises_closure_panic (.str "x")).2 examplePanicFn { ptr := 0 } [] rfl rfl).1⟩

/-- C10: for every signature and closure, when the arguments match the
parameter kinds and the closure returns, without a trap, values of which the
one at some position `i` has a kind other than the result kind declared at
`i`, a fault emerges from `Func.Call` whose value is a string containing
"callback produced wrong type of result"; no results and no trap are returned. -/
theorem Call_wrong_result_kind_panics (ty : FuncType) (cb : Callback) (caller : Caller)
    (args vals : List Val) (i : Nat) (v : Val) (k : ValKind)
    (hargs : args.map Val.Kind = ty.params)
    (hcb : cb caller args = Exec.returned (vals, none))
    (hv : vals[i]? = some v) (hk : ty.results[i]? = some k) (hne : v.Kind ≠ k) :
    ∃ msg : String,
      ((NewFunc ty cb).Call caller args).outcome = CallOutcome.panicked (Payload.str msg) ∧
      strings_Contains msg "callback produced wrong type of result" := by
  have hres : vals.map Val.Kind ≠ (NewFunc ty cb).ty.results := by
    intro h
    have h1 : (vals.map Val.Kind)[i]? = some v.Kind := by
      rw [List.getElem?_map, hv]; rfl
    rw [h] at h1
    have h2 : (NewFunc ty cb).ty.results[i]? = some k := hk
    rw [h2] at h1
    exact hne (Option.some.inj h1).symm
  refine ⟨wrongResultMessage, ?_, List.infix_refl _⟩
  rw [Call_of_wrong_kinds (NewFunc ty cb) caller args vals hargs hcb hres]

theorem Call_wrong_result_kind_panics_witness :
    ∃ msg : String,
      ((NewFunc { params := [], results := [.I32] } exampleWrongRetCallback).Call
        { ptr := 0 } []).outcome = CallOutcome.panicked (Payload.str msg) ∧
      strings_Contains msg "callback produced wrong type of result" :=
  Call_wrong_result_kind_panics { params := [], results := [.I32] } exampleWrongRetCallback
    { ptr := 0 } [] [Val.I64 3] 0 (Val.I64 3) .I32 rfl rfl rfl rfl (by decide)

end Wasmtime
